import Mathlib

/-
Shallow embedding of src/oncall_scheduler.cc (on-call scheduler built on a
CP-SAT style model builder).  Pure data and the model-building logic are
translated into executable Lean definitions; the external solver is modelled
by quantifying over assignments that satisfy the built constraints, and the
nondeterministic std::shuffle is modelled by quantifying over permutations
of the filtered roster.
-/

/-- The carbon based life form part of the oncall rotation consisting of a
name and location (struct Person, lines 30-33). -/
structure Person where
  name : String
  location_name : String
deriving DecidableEq, Repr

def defaultPerson : Person := ⟨"", ""⟩

/-- History lookup stub (lines 41-43): `p.name == "me"` regardless of week. -/
def was_primary_oncall (week : Nat) (p : Person) : Bool :=
  p.name == "me"

/-- History lookup stub (lines 45-47): `p.name == "be"` regardless of week. -/
def was_secondary_oncall (week : Nat) (p : Person) : Bool :=
  p.name == "be"

/-- A boolean model variable: either a constant (builder.TrueVar() /
builder.FalseVar(), used for the fixed history region) or a free decision
variable identified by its allocation index (builder.NewBoolVar()). -/
inductive BVar where
  | const : Bool → BVar
  | free : Nat → BVar
deriving DecidableEq, Repr

/-- Value of a boolean variable under an assignment of the free variables. -/
def BVar.eval (σb : Nat → Bool) : BVar → Bool
  | .const b => b
  | .free n => σb n

/-- A linear expression over boolean variables and bounded integer variables
(operations_research::sat::LinearExpr): boolean terms with coefficients,
integer-variable terms with coefficients, and a constant offset. -/
structure LinearExpr where
  bterms : List (BVar × Int)
  iterms : List (Nat × Int)
  k : Int
deriving DecidableEq, Repr

/-- LinearExpr::BooleanSum: each boolean variable with coefficient 1. -/
def boolSum (vs : List BVar) : LinearExpr :=
  ⟨vs.map (fun v => (v, 1)), [], 0⟩

/-- A constant LinearExpr (implicit conversion from an integer literal). -/
def constE (n : Int) : LinearExpr :=
  ⟨[], [], n⟩

/-- Implicit conversion of a single BoolVar to a LinearExpr. -/
def bvarExpr (v : BVar) : LinearExpr :=
  ⟨[(v, 1)], [], 0⟩

/-- Evaluation of a linear expression under assignments of the free boolean
variables and of the integer variables. -/
def LinearExpr.eval (σb : Nat → Bool) (σi : Nat → Int) (e : LinearExpr) : Int :=
  (e.bterms.map (fun t => if t.1.eval σb then t.2 else 0)).sum
    + (e.iterms.map (fun t => t.2 * σi t.1)).sum
    + e.k

/-- A hard constraint added to the model: AddLessOrEqual or AddEquality. -/
inductive Constraint where
  | le : LinearExpr → LinearExpr → Constraint
  | eq : LinearExpr → LinearExpr → Constraint
deriving DecidableEq, Repr

/-- Satisfaction of a single constraint by an assignment. -/
def Constraint.sat (σb : Nat → Bool) (σi : Nat → Int) : Constraint → Prop
  | .le l r => l.eval σb σi ≤ r.eval σb σi
  | .eq l r => l.eval σb σi = r.eval σb σi

instance (σb : Nat → Bool) (σi : Nat → Int) (c : Constraint) :
    Decidable (c.sat σb σi) := by
  cases c <;> simp [Constraint.sat] <;> infer_instance

/-- An assignment satisfies every constraint of a list. -/
def SatAll (σb : Nat → Bool) (σi : Nat → Int) (cs : List Constraint) : Prop :=
  ∀ c ∈ cs, c.sat σb σi

/-- Remove persons that are completely out of office (filterOOO,
lines 80-89): keep exactly those whose name is not "ooo", in order. -/
def filterOOO (num_shifts : Nat) (person : List Person) : List Person :=
  person.filter (fun p => p.name != "ooo")

/-- The variable for (shift index, person index) in the Primary role
(vectors primary_shifts, lines 113-157).  History rows (shift < lookback)
hold the fixed truth from was_primary_oncall; future rows hold the free
variable allocated in source order (for each future offset and person,
the primary variable is allocated immediately before the secondary one). -/
def primaryShiftVar (lookback : Nat) (avail : List Person) (shift p_no : Nat) : BVar :=
  if shift < lookback then
    .const (was_primary_oncall shift (avail.getD p_no defaultPerson))
  else
    .free (2 * ((shift - lookback) * avail.length + p_no))

/-- The variable for (shift index, person index) in the Secondary role
(vectors secondary_shifts, lines 113-157). -/
def secondaryShiftVar (lookback : Nat) (avail : List Person) (shift p_no : Nat) : BVar :=
  if shift < lookback then
    .const (was_secondary_oncall shift (avail.getD p_no defaultPerson))
  else
    .free (2 * ((shift - lookback) * avail.length + p_no) + 1)

/-- Hard constraints added by the future-shift loop (lines 145-177): per
person, exclusivity (line 160) and, when shift >= 1, the two cooldown
constraints (lines 163-171); per shift, the two coverage equalities
(lines 175-176). -/
def hardConstraints (num_shifts lookback : Nat) (avail : List Person) : List Constraint :=
  (List.range num_shifts).flatMap (fun i =>
    let shift := i + lookback
    ((List.range avail.length).flatMap (fun p_no =>
      let p_shift := primaryShiftVar lookback avail shift p_no
      let s_shift := secondaryShiftVar lookback avail shift p_no
      [Constraint.le (boolSum [p_shift, s_shift]) (constE 1)]
        ++ (if 1 ≤ shift then
              [Constraint.le
                 (boolSum [p_shift, primaryShiftVar lookback avail (shift - 1) p_no])
                 (constE 1),
               Constraint.le
                 (boolSum [s_shift, secondaryShiftVar lookback avail (shift - 1) p_no])
                 (constE 1)]
            else [])))
      ++ [Constraint.eq
            (boolSum ((List.range avail.length).map
              (fun p_no => primaryShiftVar lookback avail shift p_no)))
            (constE 1),
          Constraint.eq
            (boolSum ((List.range avail.length).map
              (fun p_no => secondaryShiftVar lookback avail shift p_no)))
            (constE 1)])

/-- Which side of the inequality receives the penalty variables
(enum dir, lines 49-52). -/
inductive Dir where
  | Lhs
  | Rhs
deriving DecidableEq, Repr

/-- State of the builder during the fairness phase: the next integer-variable
allocation index, the integer variables with their domains (all of the form
Domain(0, hi) in the source), the constraints added so far, and the objective
accumulated so far. -/
structure FairState where
  nextInt : Nat
  domains : List (Nat × Nat)
  constraints : List Constraint
  objective : LinearExpr
deriving DecidableEq, Repr

def initFair : FairState :=
  ⟨0, [], [], ⟨[], [], 0⟩⟩

/-- builder.NewIntVar(Domain(0, hi)): allocates the next integer variable. -/
def FairState.NewIntVar (st : FairState) (hi : Nat) : Nat × FairState :=
  (st.nextInt,
   { st with nextInt := st.nextInt + 1, domains := st.domains ++ [(st.nextInt, hi)] })

/-- Apply a (soft) constraint to either the left or the rhs
(AddSoftLessOrEqual, lines 56-77): allocate surplus and deficit in the given
domain, add surplus and subtract deficit on the chosen side, add both to the
objective with coefficient 1, and impose the rewritten inequality as a hard
AddLessOrEqual. -/
def AddSoftLessOrEqual (st : FairState) (hi : Nat) (d : Dir)
    (left right : LinearExpr) : FairState :=
  let a1 := st.NewIntVar hi
  let surplus := a1.1
  let st1 := a1.2
  let a2 := st1.NewIntVar hi
  let deficit := a2.1
  let st2 := a2.2
  let lr : LinearExpr × LinearExpr :=
    match d with
    | .Lhs => ({ left with iterms := left.iterms ++ [(surplus, 1), (deficit, -1)] }, right)
    | .Rhs => (left, { right with iterms := right.iterms ++ [(surplus, 1), (deficit, -1)] })
  { st2 with
    objective := { st2.objective with
                   iterms := st2.objective.iterms ++ [(surplus, 1), (deficit, 1)] }
    constraints := st2.constraints ++ [Constraint.le lr.1 lr.2] }

/-- The column of one person's Primary variables over all shift indices,
history plus future (p_person_shifts, lines 190-194). -/
def primaryColumn (num_shifts lookback : Nat) (avail : List Person) (p_no : Nat) :
    List BVar :=
  (List.range (lookback + num_shifts)).map (fun s => primaryShiftVar lookback avail s p_no)

/-- The column of one person's Secondary variables over all shift indices
(s_person_shifts, lines 190-197). -/
def secondaryColumn (num_shifts lookback : Nat) (avail : List Person) (p_no : Nat) :
    List BVar :=
  (List.range (lookback + num_shifts)).map (fun s => secondaryShiftVar lookback avail s p_no)

/-- Body of the fairness loop for one person (lines 189-210): soft lower and
upper bounds on the primary column, then on the secondary column. -/
def fairnessStep (num_shifts lookback : Nat) (avail : List Person)
    (mn mx : Nat) (st : FairState) (p_no : Nat) : FairState :=
  let pcol := boolSum (primaryColumn num_shifts lookback avail p_no)
  let scol := boolSum (secondaryColumn num_shifts lookback avail p_no)
  let st1 := AddSoftLessOrEqual st mn Dir.Rhs (constE mn) pcol
  let st2 := AddSoftLessOrEqual st1 (mx * 2) Dir.Lhs pcol (constE mx)
  let st3 := AddSoftLessOrEqual st2 mn Dir.Rhs (constE mn) scol
  AddSoftLessOrEqual st3 (mx * 2) Dir.Lhs scol (constE mx)

/-- The fairness phase (lines 187-210): fold of the per-person step over all
available person indices, starting from the empty builder state. -/
def fairnessState (num_shifts lookback : Nat) (avail : List Person)
    (mn mx : Nat) : FairState :=
  (List.range avail.length).foldl (fairnessStep num_shifts lookback avail mn mx) initFair

/-- min_shifts (line 183): integer division of the total shift count by the
available-person count. -/
def min_shifts (total count : Nat) : Nat :=
  total / count

/-- max_shifts (line 184): min_shifts when the division is exact, otherwise
min_shifts + 1. -/
def max_shifts (total count : Nat) : Nat :=
  if total % count = 0 then min_shifts total count else min_shifts total count + 1

/-- The demo hack (lines 221-224): for every future offset i with
1 <= i < num_shifts, equate both variables of the person at index 0 of the
shuffled available list with builder.FalseVar(). -/
def hackConstraints (num_shifts lookback : Nat) (avail : List Person) : List Constraint :=
  (List.range num_shifts).flatMap (fun i =>
    if 1 ≤ i then
      [Constraint.eq (bvarExpr (primaryShiftVar lookback avail (lookback + i) 0))
         (bvarExpr (.const false)),
       Constraint.eq (bvarExpr (secondaryShiftVar lookback avail (lookback + i) 0))
         (bvarExpr (.const false))]
    else [])

/-- The cost terms appended to the objective (lines 227-240), in loop order:
for each future offset and person, cost 10 when the person is located in
"def" and 3 < i < 5, else cost 1, on both the primary and the secondary
variable. -/
def costTerms (num_shifts lookback : Nat) (avail : List Person) : List (BVar × Int) :=
  (List.range num_shifts).flatMap (fun i =>
    (List.range avail.length).flatMap (fun p_no =>
      let person := avail.getD p_no defaultPerson
      let cost : Int := if person.location_name = "def" ∧ 3 < i ∧ i < 5 then 10 else 1
      [(primaryShiftVar lookback avail (lookback + i) p_no, cost),
       (secondaryShiftVar lookback avail (lookback + i) p_no, cost)]))

/-- objective.AddTerm over the cost loop: only boolean terms are appended;
the integer (penalty) terms pass through unchanged. -/
def addCosts (num_shifts lookback : Nat) (avail : List Person)
    (obj : LinearExpr) : LinearExpr :=
  { obj with bterms := obj.bterms ++ costTerms num_shifts lookback avail }

/-- All hard constraints of the built model in source order: the future-shift
loop (lines 145-177), then the fairness phase's rewritten inequalities
(lines 189-210), then the demo hack equalities (lines 221-224). -/
def fullConstraints (num_shifts lookback : Nat) (avail : List Person) : List Constraint :=
  hardConstraints num_shifts lookback avail
    ++ (fairnessState num_shifts lookback avail
          (min_shifts (num_shifts + lookback) avail.length)
          (max_shifts (num_shifts + lookback) avail.length)).constraints
    ++ hackConstraints num_shifts lookback avail

/-- The finalized model handed to the solver with Minimize(objective). -/
structure BuiltModel where
  minShifts : Nat
  maxShifts : Nat
  constraints : List Constraint
  domains : List (Nat × Nat)
  objective : LinearExpr
deriving DecidableEq, Repr

/-- The model-building part of schedule (lines 92-242), parametrized by the
post-shuffle available roster.  Returns none when the available list is
empty: line 183 then divides total_shifts by availablePersons.size() == 0,
which is undefined behaviour in the C++ source (there is no guard there);
the none models that failure point.  Everything before the division is
captured by fullConstraints, which is defined independently. -/
def buildModel (num_shifts lookback : Nat) (availablePersons : List Person) :
    Option BuiltModel :=
  if availablePersons.length = 0 then none
  else
    let total := num_shifts + lookback
    let mn := min_shifts total availablePersons.length
    let mx := max_shifts total availablePersons.length
    let fair := fairnessState num_shifts lookback availablePersons mn mx
    some { minShifts := mn
           maxShifts := mx
           constraints := fullConstraints num_shifts lookback availablePersons
           domains := fair.domains
           objective := addCosts num_shifts lookback availablePersons fair.objective }

/-- Solver response status (operations_research::sat::CpSolverStatus). -/
inductive CpSolverStatus where
  | UNKNOWN
  | MODEL_INVALID
  | FEASIBLE
  | INFEASIBLE
  | OPTIMAL
deriving DecidableEq, Repr

/-- The solver's response: a status and the values of the free boolean
variables (SolutionBooleanValue reads these). -/
structure CpSolverResponse where
  status : CpSolverStatus
  solution : Nat → Bool

/-- SolutionBooleanValue(response, var): fixed constants evaluate to their
value, free variables are read from the response's solution. -/
def SolutionBooleanValue (r : CpSolverResponse) : BVar → Bool
  | .const b => b
  | .free n => r.solution n

/-- The reporting loop for Primary (lines 252-262): emit one
(shift, person name) entry for every variable that reads true, with no
status check and no exactly-one check. -/
def reportPrimary (num_shifts lookback : Nat) (avail : List Person)
    (r : CpSolverResponse) : List (Nat × String) :=
  (List.range num_shifts).flatMap (fun i =>
    let shift := i + lookback
    (List.range avail.length).flatMap (fun p =>
      if SolutionBooleanValue r (primaryShiftVar lookback avail shift p) then
        [(shift, (avail.getD p defaultPerson).name)]
      else []))

/-- The reporting loop for Secondary (lines 264-274). -/
def reportSecondary (num_shifts lookback : Nat) (avail : List Person)
    (r : CpSolverResponse) : List (Nat × String) :=
  (List.range num_shifts).flatMap (fun i =>
    let shift := i + lookback
    (List.range avail.length).flatMap (fun p =>
      if SolutionBooleanValue r (secondaryShiftVar lookback avail shift p) then
        [(shift, (avail.getD p defaultPerson).name)]
      else []))

/-- The hardcoded demo roster (lines 93-101). -/
def demoRotation : List Person :=
  [⟨"me", "abc"⟩, ⟨"be", "abc"⟩, ⟨"ce", "def"⟩, ⟨"fe", "def"⟩, ⟨"ooo", "def"⟩]

/-- A two-person post-shuffle roster used for concrete witnesses. -/
def pairRoster : List Person :=
  [⟨"me", "abc"⟩, ⟨"be", "abc"⟩]

/-- A three-person post-shuffle roster used for concrete witnesses. -/
def trioRoster : List Person :=
  [⟨"me", "abc"⟩, ⟨"be", "abc"⟩, ⟨"ce", "def"⟩]

/-- The eight penalty-variable domains allocated for person index p during
the fairness phase, in allocation order: surplus and deficit of the primary
lower bound (Domain(0, min_shifts)), of the primary upper bound
(Domain(0, max_shifts * 2)), then the same for secondary. -/
def personFairDomains (mn mx : Nat) (p : Nat) : List (Nat × Nat) :=
  [(8*p, mn), (8*p+1, mn), (8*p+2, mx*2), (8*p+3, mx*2),
   (8*p+4, mn), (8*p+5, mn), (8*p+6, mx*2), (8*p+7, mx*2)]

/-- An expression with surplus variable s added and deficit variable d
subtracted, as AddSoftLessOrEqual rewrites its chosen side. -/
def withPenalty (e : LinearExpr) (s d : Nat) : LinearExpr :=
  { e with iterms := e.iterms ++ [(s, 1), (d, -1)] }

/-- The four rewritten soft-bound inequalities imposed as hard constraints
for person index p: min_shifts <= primary column + surplus - deficit,
primary column + surplus - deficit <= max_shifts, and the same pair for the
secondary column. -/
def personFairCons (num_shifts lookback : Nat) (avail : List Person)
    (mn mx : Nat) (p : Nat) : List Constraint :=
  let pcol := boolSum (primaryColumn num_shifts lookback avail p)
  let scol := boolSum (secondaryColumn num_shifts lookback avail p)
  [Constraint.le (constE mn) (withPenalty pcol (8*p) (8*p+1)),
   Constraint.le (withPenalty pcol (8*p+2) (8*p+3)) (constE mx),
   Constraint.le (constE mn) (withPenalty scol (8*p+4) (8*p+5)),
   Constraint.le (withPenalty scol (8*p+6) (8*p+7)) (constE mx)]

/-- The eight objective terms added for person index p during the fairness
phase: every penalty variable with unit weight. -/
def personObjTerms (p : Nat) : List (Nat × Int) :=
  [(8*p, 1), (8*p+1, 1), (8*p+2, 1), (8*p+3, 1),
   (8*p+4, 1), (8*p+5, 1), (8*p+6, 1), (8*p+7, 1)]

instance (σb : Nat → Bool) (σi : Nat → Int) (cs : List Constraint) :
    Decidable (SatAll σb σi cs) :=
  inferInstanceAs (Decidable (∀ c ∈ cs, c.sat σb σi))

/- ------------------------------------------------------------------ -/
/- Helper lemmas.                                                      -/
/- ------------------------------------------------------------------ -/

theorem sum_indicator (σb : Nat → Bool) (vs : List BVar) :
    (vs.map (fun v => if v.eval σb then (1 : Int) else 0)).sum
      = (vs.countP (fun v => v.eval σb) : Int) := by
  induction vs with
  | nil => simp
  | cons v vs ih =>
    rw [List.map_cons, List.sum_cons, List.countP_cons, ih]
    cases hv : v.eval σb <;> simp [hv] <;> omega

theorem boolSum_eval (σb : Nat → Bool) (σi : Nat → Int) (vs : List BVar) :
    (boolSum vs).eval σb σi = (vs.countP (fun v => v.eval σb) : Int) := by
  have h := sum_indicator σb vs
  simp [boolSum, LinearExpr.eval, List.map_map] at *
  convert h using 2

theorem pair_le_one {σb : Nat → Bool} {σi : Nat → Int} {a b : BVar}
    (h : (Constraint.le (boolSum [a, b]) (constE 1)).sat σb σi) :
    ¬(a.eval σb = true ∧ b.eval σb = true) := by
  simp only [Constraint.sat] at h
  simp [boolSum, LinearExpr.eval, constE] at h
  rcases ha : a.eval σb <;> rcases hb : b.eval σb <;> simp [ha, hb] at h ⊢

theorem sat_coverage {σb : Nat → Bool} {σi : Nat → Int} {f : Nat → BVar} {n : Nat}
    (h : (Constraint.eq (boolSum ((List.range n).map f)) (constE 1)).sat σb σi) :
    (List.range n).countP (fun p => (f p).eval σb) = 1 := by
  simp only [Constraint.sat] at h
  rw [boolSum_eval] at h
  simp [constE, LinearExpr.eval] at h
  simpa [Function.comp] using h

theorem sat_eq_false {σb : Nat → Bool} {σi : Nat → Int} {v : BVar}
    (h : (Constraint.eq (bvarExpr v) (bvarExpr (BVar.const false))).sat σb σi) :
    v.eval σb = false := by
  have hc : (BVar.const false).eval σb = false := rfl
  simp only [Constraint.sat, bvarExpr, LinearExpr.eval, List.map_cons, List.map_nil,
    List.sum_cons, List.sum_nil, add_zero, zero_add, hc] at h
  cases hv : v.eval σb
  · rfl
  · rw [hv] at h
    norm_num at h

theorem buildModel_constraints (num_shifts lookback : Nat) (avail : List Person)
    (h : 0 < avail.length) :
    (buildModel num_shifts lookback avail).map BuiltModel.constraints
      = some (fullConstraints num_shifts lookback avail) := by
  rw [buildModel, if_neg (Nat.pos_iff_ne_zero.mp h)]
  rfl

theorem coverage_mem (num_shifts lookback : Nat) (avail : List Person) (i : Nat)
    (hlo : lookback ≤ i) (hhi : i < lookback + num_shifts) :
    Constraint.eq (boolSum ((List.range avail.length).map
        (fun p_no => primaryShiftVar lookback avail i p_no))) (constE 1)
        ∈ hardConstraints num_shifts lookback avail ∧
    Constraint.eq (boolSum ((List.range avail.length).map
        (fun p_no => secondaryShiftVar lookback avail i p_no))) (constE 1)
        ∈ hardConstraints num_shifts lookback avail := by
  unfold hardConstraints
  constructor <;>
    refine List.mem_flatMap.mpr ⟨i - lookback, List.mem_range.mpr (by omega), ?_⟩ <;>
    simp only [Nat.sub_add_cancel hlo] <;>
    exact List.mem_append_right _ (by simp)

theorem exclusivity_mem (num_shifts lookback : Nat) (avail : List Person)
    (i p_no : Nat) (hp : p_no < avail.length)
    (hlo : lookback ≤ i) (hhi : i < lookback + num_shifts) :
    Constraint.le (boolSum [primaryShiftVar lookback avail i p_no,
        secondaryShiftVar lookback avail i p_no]) (constE 1)
      ∈ hardConstraints num_shifts lookback avail := by
  unfold hardConstraints
  refine List.mem_flatMap.mpr ⟨i - lookback, List.mem_range.mpr (by omega), ?_⟩
  simp only [Nat.sub_add_cancel hlo]
  refine List.mem_append_left _ (List.mem_flatMap.mpr ⟨p_no, List.mem_range.mpr hp, ?_⟩)
  simp

theorem cooldown_mem (num_shifts lookback : Nat) (avail : List Person)
    (i p_no : Nat) (hp : p_no < avail.length) (h1 : 1 ≤ i)
    (hlo : lookback ≤ i) (hhi : i < lookback + num_shifts) :
    Constraint.le (boolSum [primaryShiftVar lookback avail i p_no,
        primaryShiftVar lookback avail (i - 1) p_no]) (constE 1)
        ∈ hardConstraints num_shifts lookback avail ∧
    Constraint.le (boolSum [secondaryShiftVar lookback avail i p_no,
        secondaryShiftVar lookback avail (i - 1) p_no]) (constE 1)
        ∈ hardConstraints num_shifts lookback avail := by
  unfold hardConstraints
  constructor <;>
    refine List.mem_flatMap.mpr ⟨i - lookback, List.mem_range.mpr (by omega), ?_⟩ <;>
    simp only [Nat.sub_add_cancel hlo] <;>
    refine List.mem_append_left _
      (List.mem_flatMap.mpr ⟨p_no, List.mem_range.mpr hp, ?_⟩) <;>
    rw [if_pos h1] <;>
    simp

theorem hack_mem (num_shifts lookback : Nat) (avail : List Person)
    (i : Nat) (h1 : 1 ≤ i) (hi : i < num_shifts) :
    Constraint.eq (bvarExpr (primaryShiftVar lookback avail (lookback + i) 0))
        (bvarExpr (BVar.const false)) ∈ hackConstraints num_shifts lookback avail ∧
    Constraint.eq (bvarExpr (secondaryShiftVar lookback avail (lookback + i) 0))
        (bvarExpr (BVar.const false)) ∈ hackConstraints num_shifts lookback avail := by
  unfold hackConstraints
  constructor <;>
    refine List.mem_flatMap.mpr ⟨i, List.mem_range.mpr hi, ?_⟩ <;>
    rw [if_pos h1] <;>
    simp

theorem length_flatMap_const {α β : Type} (f : α → List β) (c : Nat) (l : List α)
    (h : ∀ a, (f a).length = c) : (l.flatMap f).length = c * l.length := by
  induction l with
  | nil => simp
  | cons a l ih =>
    rw [List.flatMap_cons, List.length_append, h, ih, List.length_cons]
    ring

theorem minmax_bounds (total cnt : Nat) (h : 0 < cnt) :
    min_shifts total cnt * cnt ≤ total ∧
    total ≤ max_shifts total cnt * cnt ∧
    max_shifts total cnt - min_shifts total cnt ≤ 1 := by
  unfold max_shifts min_shifts
  refine ⟨Nat.div_mul_le_self total cnt, ?_, ?_⟩
  · by_cases hd : total % cnt = 0
    · rw [if_pos hd, Nat.div_mul_cancel (Nat.dvd_of_mod_eq_zero hd)]
    · rw [if_neg hd]
      have h2 := Nat.div_add_mod total cnt
      have h3 : total % cnt < cnt := Nat.mod_lt total h
      have h4 : (total / cnt + 1) * cnt = cnt * (total / cnt) + cnt := by ring
      rw [h4]
      linarith
  · by_cases hd : total % cnt = 0
    · rw [if_pos hd]
      simp
    · rw [if_neg hd]
      generalize total / cnt = m
      omega

theorem fairnessState_closed (num_shifts lookback : Nat) (avail : List Person)
    (mn mx : Nat) (k : Nat) :
    (List.range k).foldl (fairnessStep num_shifts lookback avail mn mx) initFair =
      ⟨8 * k,
       (List.range k).flatMap (personFairDomains mn mx),
       (List.range k).flatMap (personFairCons num_shifts lookback avail mn mx),
       ⟨[], (List.range k).flatMap personObjTerms, 0⟩⟩ := by
  induction k with
  | zero => rfl
  | succ k ih =>
    rw [List.range_succ, List.foldl_append, ih]
    simp only [List.foldl_cons, List.foldl_nil, List.flatMap_append,
      List.flatMap_cons, List.flatMap_nil, List.append_nil]
    simp only [fairnessStep, AddSoftLessOrEqual, FairState.NewIntVar,
      personFairDomains, personFairCons, personObjTerms, withPenalty]
    simp only [FairState.mk.injEq, LinearExpr.mk.injEq, List.append_assoc,
      List.cons_append, List.nil_append, List.singleton_append]
    refine ⟨by omega, ?_, ?_, ?_⟩ <;> simp_arith

/- ------------------------------------------------------------------ -/
/- Claim theorems.                                                     -/
/- ------------------------------------------------------------------ -/

/-- C1: for every future shift index i (lookback <= i < lookback + num_shifts)
the built model contains the hard coverage equalities summing the primary and
the secondary variables of all available persons to 1, and hence, with at
least two available persons, every assignment satisfying the model's hard
constraints makes exactly one person Primary and exactly one person Secondary
at index i. -/
theorem coverage_exactly_one (num_shifts lookback : Nat) (avail : List Person)
    (i : Nat) (havail : 2 ≤ avail.length)
    (hlo : lookback ≤ i) (hhi : i < lookback + num_shifts) :
    (buildModel num_shifts lookback avail).map BuiltModel.constraints
      = some (fullConstraints num_shifts lookback avail) ∧
    Constraint.eq (boolSum ((List.range avail.length).map
        (fun p_no => primaryShiftVar lookback avail i p_no))) (constE 1)
      ∈ fullConstraints num_shifts lookback avail ∧
    Constraint.eq (boolSum ((List.range avail.length).map
        (fun p_no => secondaryShiftVar lookback avail i p_no))) (constE 1)
      ∈ fullConstraints num_shifts lookback avail ∧
    ∀ σb σi, SatAll σb σi (fullConstraints num_shifts lookback avail) →
      (List.range avail.length).countP
          (fun p_no => (primaryShiftVar lookback avail i p_no).eval σb) = 1 ∧
      (List.range avail.length).countP
          (fun p_no => (secondaryShiftVar lookback avail i p_no).eval σb) = 1 := by
  have hmem := coverage_mem num_shifts lookback avail i hlo hhi
  have hfull1 : Constraint.eq (boolSum ((List.range avail.length).map
      (fun p_no => primaryShiftVar lookback avail i p_no))) (constE 1)
      ∈ fullConstraints num_shifts lookback avail := by
    unfold fullConstraints
    exact List.mem_append_left _ (List.mem_append_left _ hmem.1)
  have hfull2 : Constraint.eq (boolSum ((List.range avail.length).map
      (fun p_no => secondaryShiftVar lookback avail i p_no))) (constE 1)
      ∈ fullConstraints num_shifts lookback avail := by
    unfold fullConstraints
    exact List.mem_append_left _ (List.mem_append_left _ hmem.2)
  refine ⟨buildModel_constraints _ _ _ (by omega), hfull1, hfull2, ?_⟩
  intro σb σi hsat
  exact ⟨sat_coverage (hsat _ hfull1), sat_coverage (hsat _ hfull2)⟩

/-- C1 witness: with two available persons, one future shift and no history,
the coverage equality is in the model, and the concrete satisfying assignment
(me primary, be secondary) has exactly one primary and one secondary. -/
theorem coverage_exactly_one_witness :
    Constraint.eq (boolSum ((List.range pairRoster.length).map
        (fun p_no => primaryShiftVar 0 pairRoster 0 p_no))) (constE 1)
      ∈ fullConstraints 1 0 pairRoster ∧
    (List.range pairRoster.length).countP
        (fun p_no => (primaryShiftVar 0 pairRoster 0 p_no).eval
          (fun n => n == 0 || n == 3)) = 1 ∧
    (List.range pairRoster.length).countP
        (fun p_no => (secondaryShiftVar 0 pairRoster 0 p_no).eval
          (fun n => n == 0 || n == 3)) = 1 :=
  have h := coverage_exactly_one 1 0 pairRoster 0 (by decide) (by decide) (by decide)
  ⟨h.2.1,
   (h.2.2.2 (fun n => n == 0 || n == 3) (fun _ => 0) (by decide)).1,
   (h.2.2.2 (fun n => n == 0 || n == 3) (fun _ => 0) (by decide)).2⟩

/-- C2: for every future shift index i >= 1 and every available person the
built model contains the cooldown constraints primary[i,p] + primary[i-1,p]
<= 1 and secondary[i,p] + secondary[i-1,p] <= 1 (the i-1 variable being the
fixed historical constant when i-1 lies in the history region), and hence in
every assignment satisfying the hard constraints no person holds the same
role on both consecutive indices. -/
theorem cooldown_no_back_to_back (num_shifts lookback : Nat) (avail : List Person)
    (i p_no : Nat) (hp : p_no < avail.length) (h1 : 1 ≤ i)
    (hlo : lookback ≤ i) (hhi : i < lookback + num_shifts) :
    (buildModel num_shifts lookback avail).map BuiltModel.constraints
      = some (fullConstraints num_shifts lookback avail) ∧
    Constraint.le (boolSum [primaryShiftVar lookback avail i p_no,
        primaryShiftVar lookback avail (i - 1) p_no]) (constE 1)
      ∈ fullConstraints num_shifts lookback avail ∧
    Constraint.le (boolSum [secondaryShiftVar lookback avail i p_no,
        secondaryShiftVar lookback avail (i - 1) p_no]) (constE 1)
      ∈ fullConstraints num_shifts lookback avail ∧
    ∀ σb σi, SatAll σb σi (fullConstraints num_shifts lookback avail) →
      ¬((primaryShiftVar lookback avail i p_no).eval σb = true ∧
        (primaryShiftVar lookback avail (i - 1) p_no).eval σb = true) ∧
      ¬((secondaryShiftVar lookback avail i p_no).eval σb = true ∧
        (secondaryShiftVar lookback avail (i - 1) p_no).eval σb = true) := by
  have hmem := cooldown_mem num_shifts lookback avail i p_no hp h1 hlo hhi
  have hfull1 : Constraint.le (boolSum [primaryShiftVar lookback avail i p_no,
      primaryShiftVar lookback avail (i - 1) p_no]) (constE 1)
      ∈ fullConstraints num_shifts lookback avail := by
    unfold fullConstraints
    exact List.mem_append_left _ (List.mem_append_left _ hmem.1)
  have hfull2 : Constraint.le (boolSum [secondaryShiftVar lookback avail i p_no,
      secondaryShiftVar lookback avail (i - 1) p_no]) (constE 1)
      ∈ fullConstraints num_shifts lookback avail := by
    unfold fullConstraints
    exact List.mem_append_left _ (List.mem_append_left _ hmem.2)
  refine ⟨buildModel_constraints _ _ _ (by omega), hfull1, hfull2, ?_⟩
  intro σb σi hsat
  exact ⟨pair_le_one (hsat _ hfull1), pair_le_one (hsat _ hfull2)⟩

/-- C2 witness: with lookback 1 and one future shift, the boundary cooldown
constraint for person "me" (historical primary at index 0) is in the model,
and in the concrete satisfying assignment (be primary, me secondary at index
1) "me" is not primary on both consecutive indices. -/
theorem cooldown_no_back_to_back_witness :
    Constraint.le (boolSum [primaryShiftVar 1 pairRoster 1 0,
        primaryShiftVar 1 pairRoster 0 0]) (constE 1)
      ∈ fullConstraints 1 1 pairRoster ∧
    ¬((primaryShiftVar 1 pairRoster 1 0).eval (fun n => n == 1 || n == 2) = true ∧
      (primaryShiftVar 1 pairRoster 0 0).eval (fun n => n == 1 || n == 2) = true) :=
  have h := cooldown_no_back_to_back 1 1 pairRoster 1 0 (by decide) (by decide)
    (by decide) (by decide)
  ⟨h.2.1,
   (h.2.2.2 (fun n => n == 1 || n == 2) (fun _ => 0) (by decide)).1⟩

/-- C3: for every future shift index and every available person the built
model contains the exclusivity constraint primary[i,p] + secondary[i,p] <= 1,
and hence in every assignment satisfying the hard constraints no person is
both Primary and Secondary on the same future shift index. -/
theorem exclusivity_not_both (num_shifts lookback : Nat) (avail : List Person)
    (i p_no : Nat) (hp : p_no < avail.length)
    (hlo : lookback ≤ i) (hhi : i < lookback + num_shifts) :
    (buildModel num_shifts lookback avail).map BuiltModel.constraints
      = some (fullConstraints num_shifts lookback avail) ∧
    Constraint.le (boolSum [primaryShiftVar lookback avail i p_no,
        secondaryShiftVar lookback avail i p_no]) (constE 1)
      ∈ fullConstraints num_shifts lookback avail ∧
    ∀ σb σi, SatAll σb σi (fullConstraints num_shifts lookback avail) →
      ¬((primaryShiftVar lookback avail i p_no).eval σb = true ∧
        (secondaryShiftVar lookback avail i p_no).eval σb = true) := by
  have hmem := exclusivity_mem num_shifts lookback avail i p_no hp hlo hhi
  have hfull : Constraint.le (boolSum [primaryShiftVar lookback avail i p_no,
      secondaryShiftVar lookback avail i p_no]) (constE 1)
      ∈ fullConstraints num_shifts lookback avail := by
    unfold fullConstraints
    exact List.mem_append_left _ (List.mem_append_left _ hmem)
  refine ⟨buildModel_constraints _ _ _ (by omega), hfull, ?_⟩
  intro σb σi hsat
  exact pair_le_one (hsat _ hfull)

/-- C3 witness: concrete instance of the exclusivity constraint and of its
semantic consequence under a satisfying assignment. -/
theorem exclusivity_not_both_witness :
    Constraint.le (boolSum [primaryShiftVar 0 pairRoster 0 0,
        secondaryShiftVar 0 pairRoster 0 0]) (constE 1)
      ∈ fullConstraints 1 0 pairRoster ∧
    ¬((primaryShiftVar 0 pairRoster 0 0).eval (fun n => n == 0 || n == 3) = true ∧
      (secondaryShiftVar 0 pairRoster 0 0).eval (fun n => n == 0 || n == 3) = true) :=
  have h := exclusivity_not_both 1 0 pairRoster 0 0 (by decide) (by decide) (by decide)
  ⟨h.2.1,
   h.2.2 (fun n => n == 0 || n == 3) (fun _ => 0) (by decide)⟩

/-- C10: beyond the documented rules, the built model hard-constrains the
person at index 0 of the shuffled available list to be neither Primary nor
Secondary on every future shift offset i with 1 <= i < num_shifts: both of
that person's variables are equated with the constant false, so in every
assignment satisfying the hard constraints that person can hold a role only
on the first future shift. -/
theorem person_zero_forced_off (num_shifts lookback : Nat) (avail : List Person)
    (i : Nat) (h0 : 0 < avail.length) (h1 : 1 ≤ i) (hi : i < num_shifts) :
    (buildModel num_shifts lookback avail).map BuiltModel.constraints
      = some (fullConstraints num_shifts lookback avail) ∧
    Constraint.eq (bvarExpr (primaryShiftVar lookback avail (lookback + i) 0))
        (bvarExpr (BVar.const false)) ∈ fullConstraints num_shifts lookback avail ∧
    Constraint.eq (bvarExpr (secondaryShiftVar lookback avail (lookback + i) 0))
        (bvarExpr (BVar.const false)) ∈ fullConstraints num_shifts lookback avail ∧
    ∀ σb σi, SatAll σb σi (fullConstraints num_shifts lookback avail) →
      (primaryShiftVar lookback avail (lookback + i) 0).eval σb = false ∧
      (secondaryShiftVar lookback avail (lookback + i) 0).eval σb = false := by
  have hmem := hack_mem num_shifts lookback avail i h1 hi
  have hfull1 : Constraint.eq (bvarExpr (primaryShiftVar lookback avail (lookback + i) 0))
      (bvarExpr (BVar.const false)) ∈ fullConstraints num_shifts lookback avail := by
    unfold fullConstraints
    exact List.mem_append_right _ hmem.1
  have hfull2 : Constraint.eq (bvarExpr (secondaryShiftVar lookback avail (lookback + i) 0))
      (bvarExpr (BVar.const false)) ∈ fullConstraints num_shifts lookback avail := by
    unfold fullConstraints
    exact List.mem_append_right _ hmem.2
  refine ⟨buildModel_constraints _ _ _ h0, hfull1, hfull2, ?_⟩
  intro σb σi hsat
  exact ⟨sat_eq_false (hsat _ hfull1), sat_eq_false (hsat _ hfull2)⟩

/-- C10 witness: with three available persons and two future shifts, the
forced-false equalities for the first-listed person at offset 1 are in the
model, and under a concrete satisfying assignment that person indeed holds
no role at offset 1. -/
theorem person_zero_forced_off_witness :
    Constraint.eq (bvarExpr (primaryShiftVar 0 trioRoster 1 0))
        (bvarExpr (BVar.const false)) ∈ fullConstraints 2 0 trioRoster ∧
    (primaryShiftVar 0 trioRoster 1 0).eval
        (fun n => n == 2 || n == 5 || n == 9 || n == 10) = false ∧
    (secondaryShiftVar 0 trioRoster 1 0).eval
        (fun n => n == 2 || n == 5 || n == 9 || n == 10) = false :=
  have h := person_zero_forced_off 2 0 trioRoster 1 (by decide) (by decide) (by decide)
  ⟨h.2.1,
   (h.2.2.2 (fun n => n == 2 || n == 5 || n == 9 || n == 10) (fun _ => 0) (by decide)).1,
   (h.2.2.2 (fun n => n == 2 || n == 5 || n == 9 || n == 10) (fun _ => 0) (by decide)).2⟩

/-- C4: for every available person and each role the fairness phase adds
exactly two soft bounds on the person's summed assignment variables S over
all shift indices: a lower bound with surplus and deficit in Domain(0,
min_shifts) imposing min_shifts <= S + surplus - deficit, and an upper bound
with surplus and deficit in Domain(0, max_shifts * 2) imposing
S + surplus - deficit <= max_shifts, each rewritten inequality a hard
constraint and each penalty variable added to the minimized objective with
unit weight (4 constraints, 8 penalty variables and 8 objective terms per
person in total). -/
theorem fairness_soft_bounds (num_shifts lookback : Nat) (avail : List Person)
    (mn mx : Nat) (p_no : Nat) (hp : p_no < avail.length) :
    ((8*p_no, mn) ∈ (fairnessState num_shifts lookback avail mn mx).domains ∧
     (8*p_no+1, mn) ∈ (fairnessState num_shifts lookback avail mn mx).domains ∧
     (8*p_no+2, mx*2) ∈ (fairnessState num_shifts lookback avail mn mx).domains ∧
     (8*p_no+3, mx*2) ∈ (fairnessState num_shifts lookback avail mn mx).domains ∧
     (8*p_no+4, mn) ∈ (fairnessState num_shifts lookback avail mn mx).domains ∧
     (8*p_no+5, mn) ∈ (fairnessState num_shifts lookback avail mn mx).domains ∧
     (8*p_no+6, mx*2) ∈ (fairnessState num_shifts lookback avail mn mx).domains ∧
     (8*p_no+7, mx*2) ∈ (fairnessState num_shifts lookback avail mn mx).domains) ∧
    (Constraint.le (constE mn)
        (withPenalty (boolSum (primaryColumn num_shifts lookback avail p_no))
          (8*p_no) (8*p_no+1))
        ∈ (fairnessState num_shifts lookback avail mn mx).constraints ∧
     Constraint.le
        (withPenalty (boolSum (primaryColumn num_shifts lookback avail p_no))
          (8*p_no+2) (8*p_no+3)) (constE mx)
        ∈ (fairnessState num_shifts lookback avail mn mx).constraints ∧
     Constraint.le (constE mn)
        (withPenalty (boolSum (secondaryColumn num_shifts lookback avail p_no))
          (8*p_no+4) (8*p_no+5))
        ∈ (fairnessState num_shifts lookback avail mn mx).constraints ∧
     Constraint.le
        (withPenalty (boolSum (secondaryColumn num_shifts lookback avail p_no))
          (8*p_no+6) (8*p_no+7)) (constE mx)
        ∈ (fairnessState num_shifts lookback avail mn mx).constraints) ∧
    (∀ j, j < 8 →
      (8*p_no + j, (1 : Int))
        ∈ (fairnessState num_shifts lookback avail mn mx).objective.iterms) ∧
    (fairnessState num_shifts lookback avail mn mx).constraints.length
      = 4 * avail.length ∧
    (fairnessState num_shifts lookback avail mn mx).domains.length
      = 8 * avail.length ∧
    (fairnessState num_shifts lookback avail mn mx).objective.iterms.length
      = 8 * avail.length := by
  have hcl := fairnessState_closed num_shifts lookback avail mn mx avail.length
  unfold fairnessState
  rw [hcl]
  have hpmem : p_no ∈ List.range avail.length := List.mem_range.mpr hp
  refine ⟨⟨?_, ?_, ?_, ?_, ?_, ?_, ?_, ?_⟩, ⟨?_, ?_, ?_, ?_⟩, ?_, ?_, ?_, ?_⟩
  · exact List.mem_flatMap.mpr ⟨p_no, hpmem, by simp [personFairDomains]⟩
  · exact List.mem_flatMap.mpr ⟨p_no, hpmem, by simp [personFairDomains]⟩
  · exact List.mem_flatMap.mpr ⟨p_no, hpmem, by simp [personFairDomains]⟩
  · exact List.mem_flatMap.mpr ⟨p_no, hpmem, by simp [personFairDomains]⟩
  · exact List.mem_flatMap.mpr ⟨p_no, hpmem, by simp [personFairDomains]⟩
  · exact List.mem_flatMap.mpr ⟨p_no, hpmem, by simp [personFairDomains]⟩
  · exact List.mem_flatMap.mpr ⟨p_no, hpmem, by simp [personFairDomains]⟩
  · exact List.mem_flatMap.mpr ⟨p_no, hpmem, by simp [personFairDomains]⟩
  · exact List.mem_flatMap.mpr ⟨p_no, hpmem, by simp [personFairCons]⟩
  · exact List.mem_flatMap.mpr ⟨p_no, hpmem, by simp [personFairCons]⟩
  · exact List.mem_flatMap.mpr ⟨p_no, hpmem, by simp [personFairCons]⟩
  · exact List.mem_flatMap.mpr ⟨p_no, hpmem, by simp [personFairCons]⟩
  · intro j hj
    refine List.mem_flatMap.mpr ⟨p_no, hpmem, ?_⟩
    interval_cases j <;> simp [personObjTerms]
  · rw [length_flatMap_const (personFairCons num_shifts lookback avail mn mx) 4
      (List.range avail.length) (fun a => rfl)]
    simp
  · rw [length_flatMap_const (personFairDomains mn mx) 8
      (List.range avail.length) (fun a => rfl)]
    simp
  · rw [length_flatMap_const personObjTerms 8
      (List.range avail.length) (fun a => rfl)]
    simp

/-- C4 witness: concrete instance with two available persons, min_shifts 0
and max_shifts 1, for the first person. -/
theorem fairness_soft_bounds_witness :
    (8*0, 0) ∈ (fairnessState 1 0 pairRoster 0 1).domains ∧
    (8*0+2, 1*2) ∈ (fairnessState 1 0 pairRoster 0 1).domains ∧
    Constraint.le (constE 0)
        (withPenalty (boolSum (primaryColumn 1 0 pairRoster 0)) (8*0) (8*0+1))
      ∈ (fairnessState 1 0 pairRoster 0 1).constraints ∧
    Constraint.le
        (withPenalty (boolSum (primaryColumn 1 0 pairRoster 0)) (8*0+2) (8*0+3))
        (constE 1)
      ∈ (fairnessState 1 0 pairRoster 0 1).constraints ∧
    (8*0 + 0, (1 : Int)) ∈ (fairnessState 1 0 pairRoster 0 1).objective.iterms ∧
    (fairnessState 1 0 pairRoster 0 1).constraints.length = 4 * pairRoster.length :=
  have h := fairness_soft_bounds 1 0 pairRoster 0 1 0 (by decide)
  ⟨h.1.1, h.1.2.2.1, h.2.1.1, h.2.1.2.1, h.2.2.1 0 (by decide), h.2.2.2.1⟩

/-- C5: with a nonempty available list the built model's fairness bounds are
min_shifts = floor(total / available_count) and max_shifts = min_shifts when
the division is exact, else min_shifts + 1 (total = num_shifts + lookback),
and they satisfy min_shifts * available_count <= total <= max_shifts *
available_count and max_shifts - min_shifts <= 1. -/
theorem fairness_bounds_formula (num_shifts lookback : Nat) (avail : List Person)
    (h : 0 < avail.length) :
    (buildModel num_shifts lookback avail).map (fun M => (M.minShifts, M.maxShifts))
      = some (min_shifts (num_shifts + lookback) avail.length,
              max_shifts (num_shifts + lookback) avail.length) ∧
    min_shifts (num_shifts + lookback) avail.length
      = (num_shifts + lookback) / avail.length ∧
    max_shifts (num_shifts + lookback) avail.length
      = (if (num_shifts + lookback) % avail.length = 0
          then min_shifts (num_shifts + lookback) avail.length
          else min_shifts (num_shifts + lookback) avail.length + 1) ∧
    min_shifts (num_shifts + lookback) avail.length * avail.length
      ≤ num_shifts + lookback ∧
    num_shifts + lookback
      ≤ max_shifts (num_shifts + lookback) avail.length * avail.length ∧
    max_shifts (num_shifts + lookback) avail.length
      - min_shifts (num_shifts + lookback) avail.length ≤ 1 := by
  have hm := minmax_bounds (num_shifts + lookback) avail.length h
  refine ⟨?_, rfl, rfl, hm.1, hm.2.1, hm.2.2⟩
  rw [buildModel, if_neg (Nat.pos_iff_ne_zero.mp h)]
  rfl

/-- C5 witness: two available persons, four future shifts and lookback one,
so total 5, min_shifts 2, max_shifts 3. -/
theorem fairness_bounds_formula_witness :
    (buildModel 4 1 pairRoster).map (fun M => (M.minShifts, M.maxShifts))
      = some (min_shifts (4 + 1) pairRoster.length,
              max_shifts (4 + 1) pairRoster.length) ∧
    min_shifts (4 + 1) pairRoster.length = (4 + 1) / pairRoster.length ∧
    min_shifts (4 + 1) pairRoster.length * pairRoster.length ≤ 4 + 1 ∧
    4 + 1 ≤ max_shifts (4 + 1) pairRoster.length * pairRoster.length ∧
    max_shifts (4 + 1) pairRoster.length - min_shifts (4 + 1) pairRoster.length ≤ 1 :=
  have h := fairness_bounds_formula 4 1 pairRoster (by decide)
  ⟨h.1, h.2.1, h.2.2.2.1, h.2.2.2.2.1, h.2.2.2.2.2⟩

/-- C9: the availability step (filterOOO followed by an arbitrary shuffle,
modelled as any permutation of the filtered list) yields exactly the persons
not marked out of office: with distinct names in the roster, every non-ooo
person occurs exactly once, every ooo person is absent, and every member of
the result is a non-ooo member of the input. -/
theorem availability_permutation (num_shifts : Nat) (persons avail : List Person)
    (hperm : avail.Perm (filterOOO num_shifts persons))
    (hnodup : (persons.map Person.name).Nodup) :
    (∀ p ∈ persons, p.name ≠ "ooo" → avail.count p = 1) ∧
    (∀ p ∈ persons, p.name = "ooo" → p ∉ avail) ∧
    (∀ p ∈ avail, p ∈ persons ∧ p.name ≠ "ooo") := by
  have hnd : persons.Nodup := hnodup.of_map
  refine ⟨?_, ?_, ?_⟩
  · intro p hp hpo
    rw [hperm.count_eq, filterOOO, List.count_filter (by simp [hpo])]
    exact List.count_eq_one_of_mem hnd hp
  · intro p hp hpo hmem
    have hf := hperm.mem_iff.mp hmem
    rw [filterOOO, List.mem_filter] at hf
    simp [hpo] at hf
  · intro p hp
    have hf := hperm.mem_iff.mp hp
    rw [filterOOO, List.mem_filter] at hf
    refine ⟨hf.1, ?_⟩
    simpa using hf.2

/-- C9 witness: on the demo roster (all names distinct), the filtered list
itself is a permutation of itself; "me" occurs exactly once, "ooo" is absent,
and "ce" is a non-ooo member of the input. -/
theorem availability_permutation_witness :
    (filterOOO 4 demoRotation).count ⟨"me", "abc"⟩ = 1 ∧
    (⟨"ooo", "def"⟩ : Person) ∉ filterOOO 4 demoRotation ∧
    ((⟨"ce", "def"⟩ : Person) ∈ demoRotation ∧
      (Person.mk "ce" "def").name ≠ "ooo") :=
  have h := availability_permutation 4 demoRotation (filterOOO 4 demoRotation)
    (List.Perm.refl _) (by decide)
  ⟨h.1 ⟨"me", "abc"⟩ (by decide) (by decide),
   h.2.1 ⟨"ooo", "def"⟩ (by decide) (by decide),
   h.2.2 ⟨"ce", "def"⟩ (by decide)⟩

/-- C6 (code bug in the source): with a roster whose available subset is
empty and num_shifts = 1 > 0, the run does not report a configuration error
before model construction: the future-shift loop still builds the (vacuous)
coverage equalities 0 == 1, and the run then fails at line 183, dividing
total_shifts by availablePersons.size() == 0 (undefined behaviour), which the
embedding models as buildModel returning none. -/
theorem empty_available_no_config_error :
    filterOOO 1 [(⟨"ooo", "def"⟩ : Person)] = [] ∧
    buildModel 1 1 [] = none ∧
    hardConstraints 1 1 [] ≠ [] ∧
    Constraint.eq (boolSum []) (constE 1) ∈ hardConstraints 1 1 [] := by
  refine ⟨by decide, rfl, by decide, by decide⟩

/-- C7 (code bug in the source): the reporting loops after SolveCpModel read
SolutionBooleanValue from the response without ever checking its status, so
a response whose status is INFEASIBLE is still interpreted into schedule
output instead of being treated as a terminal failure. -/
theorem report_reads_infeasible_response :
    reportPrimary 1 0 [⟨"me", "abc"⟩]
        ⟨CpSolverStatus.INFEASIBLE, fun _ => true⟩ = [(0, "me")] ∧
    reportSecondary 1 0 [⟨"me", "abc"⟩]
        ⟨CpSolverStatus.INFEASIBLE, fun _ => true⟩ = [(0, "me")] ∧
    reportPrimary 1 0 [⟨"me", "abc"⟩]
        ⟨CpSolverStatus.INFEASIBLE, fun _ => true⟩
      = reportPrimary 1 0 [⟨"me", "abc"⟩]
          ⟨CpSolverStatus.OPTIMAL, fun _ => true⟩ :=
  ⟨rfl, rfl, rfl⟩

/-- C8 (code bug in the source): the reporting loops emit one line per true
variable with no exactly-one check: a shift/role with zero true variables
produces no output at all (silently ignored), and one with two true
variables produces two lines, with no defect surfaced in either case. -/
theorem report_no_coverage_violation_check :
    reportPrimary 1 0 pairRoster ⟨CpSolverStatus.OPTIMAL, fun _ => false⟩ = [] ∧
    reportPrimary 1 0 pairRoster ⟨CpSolverStatus.OPTIMAL, fun _ => true⟩
      = [(0, "me"), (0, "be")] :=
  ⟨rfl, rfl⟩
